import Mathlib

/-!
Verification of the derived-metrics and aggregation engine of the cricket
dashboard (`src/app.py`) against its natural-language specification.

The embedding models the pandas pipeline shallowly:
* a dataframe column of nullable floats is a `List (Option ℚ)` (NaN = `none`);
* a float produced by an unguarded division is a `PFloat`, which carries the
  IEEE special values `nan`/`inf`/`-inf` explicitly and is otherwise an exact
  rational (the divisions and comparisons the claims mention involve no
  rounding error at these magnitudes);
* `Series.sum(skipna=True)` is a sum in which `none` contributes 0;
* `.round(d)` is numpy's round-half-to-even at `d` decimals, modelled exactly
  on rationals;
* `groupby` collects rows per distinct key value, dropping rows whose key is
  missing (pandas `dropna=True` default) and listing keys in ascending order
  (pandas `sort=True` default);
* `sort_values` is modelled as a stable sort; numpy's default introsort runs
  plain insertion sort on slices shorter than 16 elements, so on the small
  tables used as concrete inputs below the two coincide.

String helpers (strip, lower, literal substring containment, `str.split`)
are re-implemented on `List Char` so that they are kernel-computable; they
model Python's behaviour on ASCII data, which is all the claims exercise.
-/

namespace CricketDash

/-! ## Python float values arising from unguarded divisions -/

/-- A pandas float cell: NaN, +inf, -inf, or a finite value (kept exact). -/
inductive PFloat where
  | nan : PFloat
  | inf : PFloat
  | ninf : PFloat
  | fin (q : ℚ) : PFloat
deriving DecidableEq

/-- Float division `a / b` as numpy performs it on finite operands:
finite quotient when `b ≠ 0`, `±inf` for a nonzero numerator over zero,
`NaN` for `0 / 0`. -/
def pyDiv (a b : ℚ) : PFloat :=
  if b ≠ 0 then .fin (a / b)
  else if 0 < a then .inf
  else if a < 0 then .ninf
  else .nan

/-- `pd.notna` on a float: everything except NaN counts as present
(in particular `pd.notna(inf) = True`). -/
def PFloat.notna : PFloat → Bool
  | .nan => false
  | _ => true

/-- Strict `>` on floats: comparisons involving NaN are `False`;
`inf` exceeds every finite value and `-inf`. -/
def PFloat.gtB : PFloat → PFloat → Bool
  | .fin a, .fin b => decide (b < a)
  | .inf, .fin _ => true
  | .inf, .ninf => true
  | .fin _, .ninf => true
  | _, _ => false

/-- Round a rational to the nearest integer, ties to even
(numpy / Python 3 `round` semantics). -/
def rhe (q : ℚ) : ℤ :=
  let f := ⌊q⌋
  if q - f < 1 / 2 then f
  else if 1 / 2 < q - f then f + 1
  else if 2 ∣ f then f else f + 1

/-- `round(q, d)`: round half-to-even at `d` decimal places. -/
def roundQ (d : ℕ) (q : ℚ) : ℚ := (rhe (q * 10 ^ d) : ℚ) / 10 ^ d

/-- `.round(d)` on a float: finite values are rounded, `NaN`/`±inf` pass
through unchanged. -/
def PFloat.roundTo (d : ℕ) : PFloat → PFloat
  | .fin q => .fin (roundQ d q)
  | x => x

/-! ## Character and string primitives (ASCII models of the Python ones) -/

/-- The whitespace characters removed by Python's `str.strip()`. -/
def isSpaceC (c : Char) : Bool :=
  c == ' ' || c == '\t' || c == '\n' || c == '\r' || c == '\x0c' || c == '\x0b'

/-- ASCII lower-casing of one character (`str.lower()` on the data the
claims exercise). -/
def lowerC (c : Char) : Char :=
  if 65 ≤ c.toNat ∧ c.toNat ≤ 90 then Char.ofNat (c.toNat + 32) else c

/-- `str.lower()`. -/
def lowerS (s : String) : String := String.mk (s.toList.map lowerC)

/-- `str.strip()` on a character list. -/
def stripL (l : List Char) : List Char :=
  ((l.dropWhile isSpaceC).reverse.dropWhile isSpaceC).reverse

/-- `str.strip()`. -/
def stripS (s : String) : String := String.mk (stripL s.toList)

/-- Boolean prefix test on character lists. -/
def isPrefixL : List Char → List Char → Bool
  | [], _ => true
  | _ :: _, [] => false
  | a :: as, b :: bs => a == b && isPrefixL as bs

/-- Literal (non-regex) substring containment, as Python's `in` /
`str.contains(..., regex=False)`. -/
def containsL (hay needle : List Char) : Bool :=
  match hay with
  | [] => needle.isEmpty
  | _ :: t => isPrefixL needle hay || containsL t needle

/-- Substring containment on strings. -/
def containsS (hay needle : String) : Bool := containsL hay.toList needle.toList

/-- Numeric value of a digit string read left to right. -/
def digitsVal (l : List Char) : ℕ := l.foldl (fun a c => 10 * a + (c.toNat - 48)) 0

/-- Split a character list into its leading run of decimal digits and the
rest. -/
def takeDigits : List Char → List Char × List Char
  | [] => ([], [])
  | c :: t =>
    if c.isDigit then
      let p := takeDigits t
      (c :: p.1, p.2)
    else ([], c :: t)

/-- A decoded decimal literal: sign, integer-part value, fraction-digits
value, number of fraction digits. Kept in `ℕ`/`Bool` so that decoding is
kernel-computable; `litVal` interprets it in `ℚ`. -/
structure DecLit where
  neg : Bool
  ip : ℕ
  fp : ℕ
  fd : ℕ
deriving DecidableEq

/-- Decode an unsigned decimal literal `digits [. digits]` (either side of
the point may be empty, but not both), the fragment of Python float syntax
the claims exercise. `none` on anything else. -/
def decodeUnsigned (l : List Char) : Option (ℕ × ℕ × ℕ) :=
  let p := takeDigits l
  match p.2 with
  | [] => if p.1.isEmpty then none else some (digitsVal p.1, 0, 0)
  | '.' :: frac =>
    if frac.all Char.isDigit ∧ ¬(p.1.isEmpty ∧ frac.isEmpty) then
      some (digitsVal p.1, digitsVal frac, frac.length)
    else none
  | _ => none

/-- Decode a decimal literal with optional surrounding whitespace and an
optional leading sign. -/
def decodeLit (l : List Char) : Option DecLit :=
  let s := stripL l
  if s.isEmpty then none
  else if s.headD ' ' == '+' then
    (decodeUnsigned s.tail).map (fun u => ⟨false, u.1, u.2.1, u.2.2⟩)
  else if s.headD ' ' == '-' then
    (decodeUnsigned s.tail).map (fun u => ⟨true, u.1, u.2.1, u.2.2⟩)
  else (decodeUnsigned s).map (fun u => ⟨false, u.1, u.2.1, u.2.2⟩)

/-- The rational value of a decoded decimal literal. -/
def litVal (d : DecLit) : ℚ :=
  (if d.neg then -1 else 1) * ((d.ip : ℚ) + (d.fp : ℚ) / 10 ^ d.fd)

/-- `pd.to_numeric(·, errors="coerce")` on one cell holding a character
list: unparseable input coerces to NaN (`none`). -/
def toNumericL (l : List Char) : Option ℚ := (decodeLit l).map litVal

/-- `pd.to_numeric(s, errors="coerce")` on a single string cell. -/
def toNumericS (s : String) : Option ℚ := toNumericL s.toList

/-- Split at the first occurrence of `sep`: `none` when the separator does
not occur, otherwise the two surrounding pieces. -/
def splitOnce (sep : Char) : List Char → Option (List Char × List Char)
  | [] => none
  | c :: t =>
    if c == sep then some ([], t)
    else (splitOnce sep t).map (fun p => (c :: p.1, p.2))

/-- Truncation toward zero, as numpy's `astype(int)` on a finite float. -/
def pyTrunc (q : ℚ) : ℤ := if 0 ≤ q then ⌊q⌋ else ⌈q⌉

/-! ## `overs_to_balls` (src/app.py lines 33-39)

```python
def overs_to_balls(overs_series: pd.Series) -> pd.Series:
    # cricket overs like 3.3 = 3 overs + 3 balls = 21 balls
    x = overs_series.astype(str).str.strip()
    parts = x.str.split(".", n=1, expand=True)
    o = pd.to_numeric(parts[0], errors="coerce").fillna(0)
    b = pd.to_numeric(parts[1], errors="coerce").fillna(0)
    return (o * 6 + b).astype(int)
```

`str.split(".", n=1, expand=True)` produces as many columns as the maximum
number of pieces actually found: when no element of the series contains a
".", the resulting frame has a single column `0` and the subscript
`parts[1]` raises a `KeyError` (`n` caps the number of splits, it does not
pad the result).  The element-level arithmetic is total; the series-level
function is partial, which `overs_to_balls` reflects with `Option`. -/

/-- The discrete stage of the per-element arithmetic: strip, split at the
first ".", decode each piece with `pd.to_numeric`. The second component is
`none` when this element contributed no fractional piece (its cell in
column 1 of the expanded split is `None`, which `to_numeric` coerces to NaN
and `fillna(0)` then maps to 0). -/
def oversDecode (s : String) : Option DecLit × Option (Option DecLit) :=
  let x := stripL s.toList
  match splitOnce '.' x with
  | some p => (decodeLit p.1, some (decodeLit p.2))
  | none => (decodeLit x, none)

/-- The per-element arithmetic of `overs_to_balls` (defined whenever the
series-level split produced a fractional column):
`(o * 6 + b).astype(int)` with `o`, `b` the `fillna(0)` decodings of the
two pieces. -/
def overs_to_balls_elem (s : String) : ℤ :=
  let d := oversDecode s
  let o : ℚ := ((d.1.map litVal).getD 0)
  let b : ℚ := ((d.2.map (fun od => ((od.map litVal).getD 0))).getD 0)
  pyTrunc (o * 6 + b)

/-- `overs_to_balls` on a whole series: `none` models the `KeyError` raised
when no element of the (stripped) series contains a "." so that column 1 of
the expanded split does not exist. -/
def overs_to_balls (xs : List String) : Option (List ℤ) :=
  if xs.any (fun s => (splitOnce '.' (stripL s.toList)).isSome) then
    some (xs.map overs_to_balls_elem)
  else none

/-! ## Data model

One batting-innings row and one bowling-innings row, after the load-time
cleaning of src/app.py lines 67-87: the declared numeric columns have been
passed through `pd.to_numeric(errors="coerce")`, so each cell is either a
number or NaN (`Option ℚ`, `none` = NaN); `balls_bowled` is the integer
column derived by `overs_to_balls` (line 83); name columns are as loaded
(the app lower-cases them, which the concrete inputs below respect); string
cells missing from the CSV are NaN (`none`). -/

structure BatRow where
  playername : Option String
  tournamentkey : Option String
  opponent : Option String
  battingteam : Option String
  howout : Option String
  runs : Option ℚ
  balls : Option ℚ
  fours : Option ℚ
  sixes : Option ℚ
deriving DecidableEq

structure BowlRow where
  bowlername : Option String
  tournamentkey : Option String
  opponent : Option String
  bowlingteam : Option String
  runsconceded : Option ℚ
  wickets : Option ℚ
  balls_bowled : ℤ
deriving DecidableEq

/-- `norm_opp` (lines 49-56) on one opponent cell: fill NaN with "", strip,
and map the empty result to the "(Unknown)" label. -/
def normOppStr (o : Option String) : String :=
  let s := stripS (o.getD "")
  if s = "" then "(Unknown)" else s

/-- `norm_opp` applied to a batting row (line 89). -/
def normBat (r : BatRow) : BatRow := { r with opponent := some (normOppStr r.opponent) }

/-- `norm_opp` applied to a bowling row (line 90). -/
def normBowl (r : BowlRow) : BowlRow := { r with opponent := some (normOppStr r.opponent) }

/-! ## Sums, counts, dismissals -/

/-- `Series.sum(skipna=True)`: NaN contributes 0; an all-NaN column sums
to 0 (pandas' default `min_count=0`). -/
def sumO (xs : List (Option ℚ)) : ℚ := (xs.map (fun o => o.getD 0)).sum

/-- Pandas `count` aggregation: the number of non-NaN cells. -/
def cntO (xs : List (Option ℚ)) : ℕ := (xs.filterMap id).length

/-- One row's dismissal test as the code performs it
(`howout.fillna("").str.lower() != "not out"`, lines 143, 242, 313):
NaN becomes "", is lower-cased, and is compared with "not out". -/
def isOut (h : Option String) : Bool := !(lowerS (h.getD "") == "not out")

/-- `dismissals` / `wickets_lost`: the number of rows passing `isOut`
(the `.sum()` of the boolean mask). -/
def dismissalsOf (t : List BatRow) : ℕ := t.countP (fun r => isOut r.howout)

/-- Follows the spec's words, for comparison with `dismissalsOf`: count the
rows whose dismissal field is present, non-blank and case-insensitively
different from "not out" (missing or blank is a not-out and must not be
counted). -/
def dismissalsSpecCount (t : List BatRow) : ℕ :=
  t.countP (fun r =>
    match r.howout with
    | none => false
    | some s => !(s == "") && !(lowerS s == "not out"))

/-- The rows whose dismissal field is missing or blank. -/
def blankOrMissingHowout (t : List BatRow) : ℕ :=
  t.countP (fun r => r.howout == none || r.howout == some "")

/-! ## Tab 1: scalar summaries (lines 140-202)

The `avgDisp`/`srDisp`/`econDisp` fields hold the value the corresponding
`st.metric` renders, `none` meaning the placeholder "—" (display-only
2-decimal formatting is not modelled). The code's internal
`sr = ... if balls else 0` (line 147) assigns 0, but that 0 is never
rendered: line 154 prints "—" whenever `balls` is 0, which is what the
`Option` captures. -/

structure BatScalar where
  inns : ℕ
  runs : ℚ
  balls : ℚ
  dismissals : ℕ
  fours : ℚ
  sixes : ℚ
  avgDisp : Option ℚ
  srDisp : Option ℚ
deriving DecidableEq

/-- The batting summary block (lines 143-155) on a filtered subset. -/
def batScalar (t : List BatRow) : BatScalar :=
  let dis := dismissalsOf t
  let runs := sumO (t.map (·.runs))
  let balls := sumO (t.map (·.balls))
  { inns := t.length
    runs := runs
    balls := balls
    dismissals := dis
    fours := sumO (t.map (·.fours))
    sixes := sumO (t.map (·.sixes))
    avgDisp := if dis ≠ 0 then some (runs / (dis : ℚ)) else none
    srDisp := if balls ≠ 0 then some (runs * 100 / balls) else none }

structure BowlScalar where
  spells : ℕ
  runsConceded : ℚ
  wkts : ℚ
  ballsBowled : ℤ
  econDisp : Option ℚ
  avgDisp : Option ℚ
  srDisp : Option ℚ
deriving DecidableEq

/-- The bowling summary block (lines 178-193) on a filtered subset:
`overs_equiv = balls_bowled / 6` is falsy exactly when `balls_bowled = 0`,
in which case `Econ` renders "—"; `Avg / SR` renders "—" when wickets
are 0. -/
def bowlScalar (t : List BowlRow) : BowlScalar :=
  let ballsB : ℤ := (t.map (·.balls_bowled)).sum
  let runsC := sumO (t.map (·.runsconceded))
  let wkts := sumO (t.map (·.wickets))
  { spells := t.length
    runsConceded := runsC
    wkts := wkts
    ballsBowled := ballsB
    econDisp := if ballsB ≠ 0 then some (runsC / ((ballsB : ℚ) / 6)) else none
    avgDisp := if wkts ≠ 0 then some (runsC / wkts) else none
    srDisp := if wkts ≠ 0 then some ((ballsB : ℚ) / wkts) else none }

/-! ## Tab 2: per-player comparison (lines 228-276)

`groupby("playername")` lists its groups in ascending key order (pandas
`sort=True` default) and drops rows whose key is NaN; `sort_values`
(single key, descending) is modelled as a stable sort — numpy's default
introsort degenerates to plain (stable) insertion sort below 16 elements,
which covers every concrete table used below. -/

/-- Lexicographic comparison of character lists by code point. -/
def lexLeB : List Char → List Char → Bool
  | [], _ => true
  | _ :: _, [] => false
  | a :: as, b :: bs => if a == b then lexLeB as bs else Nat.ble a.toNat b.toNat

/-- Lexicographic `≤` on strings (the order pandas sorts string keys by). -/
def strLeB (a b : String) : Bool := lexLeB a.toList b.toList

/-- Ascending sort of a list of group keys. -/
def sortedKeys (l : List String) : List String :=
  l.insertionSort (fun a b => strLeB a b = true)

structure BatSumRow where
  playername : String
  inns : ℕ
  runs : ℚ
  balls : ℚ
  fours : ℚ
  sixes : ℚ
  avg : PFloat
  sr : PFloat
deriving DecidableEq

/-- The rows of `bat_comp` belonging to one player group. -/
def batGroup (t : List BatRow) (k : String) : List BatRow :=
  t.filter (fun r => decide (r.playername = some k))

/-- One row of `bat_summary` (lines 232-250): `inns` is the pandas `count`
aggregation of the `runs` column (non-NaN cells only); `avg` is guarded by
the dismissal count (`None`, i.e. NaN in the float column, when it is 0);
`sr` is the unguarded `runs * 100 / balls` rounded to 2 places. -/
def mkBatSumRow (t : List BatRow) (k : String) : BatSumRow :=
  let g := batGroup t k
  let runs := sumO (g.map (·.runs))
  let balls := sumO (g.map (·.balls))
  let dc := dismissalsOf g
  { playername := k
    inns := cntO (g.map (·.runs))
    runs := runs
    balls := balls
    fours := sumO (g.map (·.fours))
    sixes := sumO (g.map (·.sixes))
    avg := if 0 < dc then .fin (roundQ 2 (runs / (dc : ℚ))) else .nan
    sr := (pyDiv (runs * 100) balls).roundTo 2 }

/-- The distinct player keys of the batting groupby, ascending, NaN names
dropped. -/
def batKeys (t : List BatRow) : List String :=
  sortedKeys ((t.filterMap (·.playername)).dedup)

/-- `bat_summary` (lines 232-252): grouped aggregation then
`sort_values("runs", ascending=False)` — a single-key sort, no tiebreak. -/
def bat_summary (t : List BatRow) : List BatSumRow :=
  ((batKeys t).map (mkBatSumRow t)).insertionSort (fun a b => b.runs ≤ a.runs)

structure BowlSumRow where
  bowlername : String
  spells : ℕ
  runs : ℚ
  balls : ℚ
  wickets : ℚ
  overs : ℚ
  econ : PFloat
  avg : PFloat
  sr : PFloat
deriving DecidableEq

def bowlGroup (t : List BowlRow) (k : String) : List BowlRow :=
  t.filter (fun r => decide (r.bowlername = some k))

/-- One row of `bowl_summary` (lines 262-272): `econ`, `avg`, `sr` are
unguarded divisions (economy's denominator `balls / 6` is NOT rounded in
this tab). -/
def mkBowlSumRow (t : List BowlRow) (k : String) : BowlSumRow :=
  let g := bowlGroup t k
  let runs := sumO (g.map (·.runsconceded))
  let balls : ℚ := (((g.map (·.balls_bowled)).sum : ℤ) : ℚ)
  let wkts := sumO (g.map (·.wickets))
  { bowlername := k
    spells := cntO (g.map (·.runsconceded))
    runs := runs
    balls := balls
    wickets := wkts
    overs := roundQ 1 (balls / 6)
    econ := (pyDiv runs (balls / 6)).roundTo 2
    avg := (pyDiv runs wkts).roundTo 2
    sr := (pyDiv balls wkts).roundTo 1 }

def bowlKeys (t : List BowlRow) : List String :=
  sortedKeys ((t.filterMap (·.bowlername)).dedup)

/-- `bowl_summary` (lines 262-274): grouped aggregation then
`sort_values("wickets", ascending=False)` — single key, no tiebreak. -/
def bowl_summary (t : List BowlRow) : List BowlSumRow :=
  ((bowlKeys t).map (mkBowlSumRow t)).insertionSort (fun a b => b.wickets ≤ a.wickets)

/-! ## Filters (tab 1 line 123, tab 3 lines 298-303, `pick_team_mask`) -/

/-- `pick_team_mask` (lines 42-46): strip and lower the query; an empty
result passes every row, otherwise each cell is stringified (`astype(str)`
turns a NaN cell into the literal "nan"), lower-cased and tested for
literal substring containment. -/
def pick_team_mask (series : List (Option String)) (team_query : String) : List Bool :=
  let q := lowerS (stripS team_query)
  if q == "" then series.map (fun _ => true)
  else series.map (fun v => containsS (lowerS (v.getD "nan")) q)

/-- Boolean-mask row selection `df[mask]`. -/
def maskFilter (t : List α) (mask : List Bool) : List α :=
  (t.zip mask).filterMap (fun p => if p.2 then some p.1 else none)

/-- `bat_t[pick_team_mask(bat_t["battingteam"], team_query)]` (line 302). -/
def bat_team (q : String) (t : List BatRow) : List BatRow :=
  maskFilter t (pick_team_mask (t.map (·.battingteam)) q)

/-- `bowl_t[pick_team_mask(bowl_t["bowlingteam"], team_query)]` (line 303). -/
def bowl_team (q : String) (t : List BowlRow) : List BowlRow :=
  maskFilter t (pick_team_mask (t.map (·.bowlingteam)) q)

/-- Tournament membership filter (lines 298-300): an empty selection means
no filtering; `isin` never matches a NaN key. -/
def tournFilterBat (sel : List String) (t : List BatRow) : List BatRow :=
  if sel.isEmpty then t
  else t.filter (fun r => sel.any (fun s => r.tournamentkey == some s))

def tournFilterBowl (sel : List String) (t : List BowlRow) : List BowlRow :=
  if sel.isEmpty then t
  else t.filter (fun r => sel.any (fun s => r.tournamentkey == some s))

/-- Player identity filter `bat[bat["playername"] == player]` (line 123);
`==` never matches a NaN name. -/
def playerFilterBat (x : String) (t : List BatRow) : List BatRow :=
  t.filter (fun r => r.playername == some x)

/-! ## Tab 3: team trends (lines 295-346)

The grouping key is `(tournamentkey, opponent)` (the default
`group_by_opponent=True` branch; the `matchid` branch is identical with the
other column). `groupby` drops a row when either key cell is NaN. The
`run_rate` column exists only when `bm` is nonempty (line 315) and the
`overs_bowled`/`economy` columns only when `wm` is nonempty (line 323); in
the merged frame a key present on one side only gets NaN in the other
side's fields. When `bm` is empty but `wm` is not, the merged frame has no
`run_rate` column at all and the `result` lambda (line 343) raises a
`KeyError` — `teamTrends` returns `none` for that case. The claims do not
depend on the display sort of `mm`, which is therefore not modelled. -/

structure BmRow where
  tournamentkey : String
  opponent : String
  runs_scored : ℚ
  balls_faced : ℚ
  wickets_lost : ℕ
  run_rate : PFloat
deriving DecidableEq

structure WmRow where
  tournamentkey : String
  opponent : String
  runs_conceded : ℚ
  balls_bowled : ℚ
  wickets_taken : ℚ
  overs_bowled : ℚ
  economy : PFloat
deriving DecidableEq

/-- The grouping key of one batting row; `none` when a key cell is NaN
(pandas drops the row from the groupby). -/
def trendKeyBat (r : BatRow) : Option (String × String) :=
  match r.tournamentkey, r.opponent with
  | some tk, some op => some (tk, op)
  | _, _ => none

def trendKeyBowl (r : BowlRow) : Option (String × String) :=
  match r.tournamentkey, r.opponent with
  | some tk, some op => some (tk, op)
  | _, _ => none

/-- One group row of `bm` (lines 310-316): sums of the group's own rows,
plus `run_rate = (runs_scored * 6 / balls_faced).round(2)` (unguarded). -/
def mkBmRow (t : List BatRow) (k : String × String) : BmRow :=
  let g := t.filter (fun r => decide (trendKeyBat r = some k))
  let runs := sumO (g.map (·.runs))
  let balls := sumO (g.map (·.balls))
  { tournamentkey := k.1
    opponent := k.2
    runs_scored := runs
    balls_faced := balls
    wickets_lost := dismissalsOf g
    run_rate := (pyDiv (runs * 6) balls).roundTo 2 }

def bmKeys (t : List BatRow) : List (String × String) := (t.filterMap trendKeyBat).dedup

def bmOf (t : List BatRow) : List BmRow := (bmKeys t).map (mkBmRow t)

/-- One group row of `wm` (lines 318-325): note `overs_bowled` is the
overs-equivalent rounded to ONE decimal, and `economy` divides by that
already-rounded value. -/
def mkWmRow (t : List BowlRow) (k : String × String) : WmRow :=
  let g := t.filter (fun r => decide (trendKeyBowl r = some k))
  let runs := sumO (g.map (·.runsconceded))
  let balls : ℚ := (((g.map (·.balls_bowled)).sum : ℤ) : ℚ)
  { tournamentkey := k.1
    opponent := k.2
    runs_conceded := runs
    balls_bowled := balls
    wickets_taken := sumO (g.map (·.wickets))
    overs_bowled := roundQ 1 (balls / 6)
    economy := (pyDiv runs (roundQ 1 (balls / 6))).roundTo 2 }

def wmKeys (t : List BowlRow) : List (String × String) := (t.filterMap trendKeyBowl).dedup

def wmOf (t : List BowlRow) : List WmRow := (wmKeys t).map (mkWmRow t)

/-- One row of the outer-joined `mm` (lines 328-346), with the win/loss
label of lines 341-345. -/
structure MmRow where
  tournamentkey : String
  opponent : String
  runs_scored : Option ℚ
  balls_faced : Option ℚ
  wickets_lost : Option ℕ
  run_rate : PFloat
  runs_conceded : Option ℚ
  balls_bowled : Option ℚ
  wickets_taken : Option ℚ
  opposition_run_rate : PFloat
  result : String
deriving DecidableEq

def findBm (bm : List BmRow) (k : String × String) : Option BmRow :=
  bm.find? (fun r => r.tournamentkey == k.1 && r.opponent == k.2)

def findWm (wm : List WmRow) (k : String × String) : Option WmRow :=
  wm.find? (fun r => r.tournamentkey == k.1 && r.opponent == k.2)

/-- Build the merged row for one key: fields from an absent side are NaN;
`opposition_run_rate = (runs_conceded * 6 / balls_bowled).round(2)`
(NaN when the bowling side is absent); `result` is "Won" iff both rates are
non-NaN and `run_rate` strictly exceeds `opposition_run_rate`, else
"Lost". -/
def mkMmRow (bm : List BmRow) (wm : List WmRow) (k : String × String) : MmRow :=
  let b := findBm bm k
  let w := findWm wm k
  let rr : PFloat :=
    match b with
    | some br => br.run_rate
    | none => .nan
  let orr : PFloat :=
    match w with
    | some wr => (pyDiv (wr.runs_conceded * 6) wr.balls_bowled).roundTo 2
    | none => .nan
  { tournamentkey := k.1
    opponent := k.2
    runs_scored := b.map (·.runs_scored)
    balls_faced := b.map (·.balls_faced)
    wickets_lost := b.map (·.wickets_lost)
    run_rate := rr
    runs_conceded := w.map (·.runs_conceded)
    balls_bowled := w.map (·.balls_bowled)
    wickets_taken := w.map (·.wickets_taken)
    opposition_run_rate := orr
    result := if rr.notna && orr.notna && rr.gtB orr then "Won" else "Lost" }

/-- The outer join's key list: every distinct key present in either
aggregate, once. -/
def mmKeysOf (bm : List BmRow) (wm : List WmRow) : List (String × String) :=
  ((bm.map (fun r => (r.tournamentkey, r.opponent))) ++
    (wm.map (fun r => (r.tournamentkey, r.opponent)))).dedup

def mmOf (bm : List BmRow) (wm : List WmRow) : List MmRow :=
  (mmKeysOf bm wm).map (mkMmRow bm wm)

/-- The whole tab-3 pipeline: opponent normalization (load time, lines
89-90), tournament filter, team-substring filter, the two grouped
aggregates, the outer join and the win/loss labelling. `none` models the
`KeyError` of the `result` lambda when the batting aggregate is empty while
the bowling aggregate is not (no `run_rate` column exists then). -/
def teamTrends (bat : List BatRow) (bowl : List BowlRow) (q : String)
    (tourns : List String) : Option (List MmRow) :=
  let batTeam := bat_team q (tournFilterBat tourns (bat.map normBat))
  let bowlTeam := bowl_team q (tournFilterBowl tourns (bowl.map normBowl))
  let bm := bmOf batTeam
  let wm := wmOf bowlTeam
  if bm.isEmpty && !wm.isEmpty then none else some (mmOf bm wm)

/-! ## Generic grouped-total machinery (for the aggregation identity) -/

/-- The group-level `total_runs` of the group keyed `k`. -/
def keyedRunsSum {K : Type} [DecidableEq K] (key : BatRow → Option K)
    (t : List BatRow) (k : K) : ℚ :=
  sumO ((t.filter (fun r => decide (key r = some k))).map (·.runs))

/-- The sum of group-level `total_runs` over all groups the groupby
produces (one per distinct non-NaN key value). -/
def groupedRunsTotal {K : Type} [DecidableEq K] (key : BatRow → Option K)
    (t : List BatRow) : ℚ :=
  (((t.filterMap key).dedup).map (keyedRunsSum key t)).sum

/-- The ungrouped `total_runs` of a subset. -/
def total_runs (t : List BatRow) : ℚ := sumO (t.map (·.runs))

/-! ## Concrete tables used by the witness and counterexample theorems -/

/-- A batting row whose dismissal field is missing. -/
def rowHowoutNaN : BatRow :=
  { playername := some "a", tournamentkey := some "t", opponent := some "o"
    battingteam := some "supremos", howout := none
    runs := none, balls := none, fours := none, sixes := none }

/-- One batting innings: 10 runs, balls faced missing, dismissed. -/
def rowRuns10BallsNaN : BatRow :=
  { playername := some "a", tournamentkey := some "t", opponent := some "o"
    battingteam := some "supremos", howout := some "caught"
    runs := some 10, balls := none, fours := none, sixes := none }

/-- A second innings of the same player with a missing runs value. -/
def rowRunsNaN : BatRow :=
  { rowRuns10BallsNaN with runs := none, balls := some 5 }

/-- A batting row whose tournament key is missing (NaN grouping key). -/
def rowKeyNaN : BatRow := { rowRuns10BallsNaN with tournamentkey := none, runs := some 7 }

/-- "alice": 10 runs off 20 balls (strike rate 50). -/
def rowAlice : BatRow :=
  { rowRuns10BallsNaN with playername := some "alice", runs := some 10, balls := some 20 }

/-- "bob": 10 runs off 5 balls (strike rate 200). -/
def rowBob : BatRow :=
  { rowRuns10BallsNaN with playername := some "bob", runs := some 10, balls := some 5 }

/-- A bowling spell: 13 runs conceded off 8 balls (overs "1.2"). -/
def rowBowl13off8 : BowlRow :=
  { bowlername := some "b", tournamentkey := some "t", opponent := some "o"
    bowlingteam := some "supremos", runsconceded := some 13, wickets := some 0
    balls_bowled := 8 }

/-- A bowling spell: 5 runs conceded off one full over (6 balls), 1 wicket. -/
def rowBowl5off6 : BowlRow :=
  { rowBowl13off8 with runsconceded := some 5, balls_bowled := 6, wickets := some 1 }

/-! ## General lemmas -/

theorem sumO_nil : sumO [] = 0 := rfl

theorem sumO_cons (x : Option ℚ) (xs : List (Option ℚ)) :
    sumO (x :: xs) = x.getD 0 + sumO xs := by
  simp [sumO]

theorem cntO_eq_countP (xs : List (Option ℚ)) :
    cntO xs = xs.countP (fun o => o.isSome) := by
  induction xs with
  | nil => rfl
  | cons x xs ih =>
    cases x <;> simp [cntO, List.filterMap_cons, List.countP_cons, Option.isSome] at ih ⊢ <;>
      omega

/-! ### Lemmas about the decimal decoding used by `overs_to_balls` -/

theorem digit_beq_false {c x : Char} (h : c.isDigit = true) (hx : x.isDigit = false) :
    (c == x) = false := by
  rw [beq_eq_false_iff_ne]
  rintro rfl
  rw [h] at hx
  exact Bool.noConfusion hx

theorem isSpaceC_of_isDigit {c : Char} (h : c.isDigit = true) : isSpaceC c = false := by
  unfold isSpaceC
  rw [digit_beq_false h (by decide), digit_beq_false h (by decide),
    digit_beq_false h (by decide), digit_beq_false h (by decide),
    digit_beq_false h (by decide), digit_beq_false h (by decide)]
  rfl

theorem dropWhile_eq_self_of_head {l : List Char}
    (h : ∀ c ∈ l, isSpaceC c = false) : l.dropWhile isSpaceC = l := by
  cases l with
  | nil => rfl
  | cons c t => simp [List.dropWhile_cons, h c (by simp)]

theorem stripL_eq_self {l : List Char} (h : ∀ c ∈ l, isSpaceC c = false) :
    stripL l = l := by
  unfold stripL
  rw [dropWhile_eq_self_of_head h, dropWhile_eq_self_of_head (by
    intro c hc
    exact h c (List.mem_reverse.mp hc)), List.reverse_reverse]

theorem takeDigits_of_digits {l : List Char} (h : ∀ c ∈ l, c.isDigit = true) :
    takeDigits l = (l, []) := by
  induction l with
  | nil => rfl
  | cons c t ih =>
    rw [takeDigits, if_pos (h c (by simp)), ih (fun x hx => h x (by simp [hx]))]

theorem digit_ne_dot {c : Char} (h : c.isDigit = true) : (c == '.') = false :=
  digit_beq_false h (by decide)

theorem digit_ne_plus {c : Char} (h : c.isDigit = true) : (c == '+') = false :=
  digit_beq_false h (by decide)

theorem digit_ne_minus {c : Char} (h : c.isDigit = true) : (c == '-') = false :=
  digit_beq_false h (by decide)

theorem splitOnce_of_digits {l : List Char} (h : ∀ c ∈ l, c.isDigit = true) :
    splitOnce '.' l = none := by
  induction l with
  | nil => rfl
  | cons c t ih =>
    rw [splitOnce, if_neg (by simp [digit_ne_dot (h c (by simp))]),
      ih (fun x hx => h x (by simp [hx]))]
    rfl

theorem splitOnce_digits_append {l : List Char} (r : List Char)
    (h : ∀ c ∈ l, c.isDigit = true) :
    splitOnce '.' (l ++ '.' :: r) = some (l, r) := by
  induction l with
  | nil => simp [splitOnce]
  | cons c t ih =>
    rw [List.cons_append, splitOnce, if_neg (by simp [digit_ne_dot (h c (by simp))]),
      ih (fun x hx => h x (by simp [hx]))]
    rfl

theorem decodeUnsigned_of_digits {l : List Char} (hne : l ≠ [])
    (h : ∀ c ∈ l, c.isDigit = true) :
    decodeUnsigned l = some (digitsVal l, 0, 0) := by
  unfold decodeUnsigned
  rw [takeDigits_of_digits h]
  simp [hne]

theorem decodeLit_of_digits {l : List Char} (hne : l ≠ [])
    (h : ∀ c ∈ l, c.isDigit = true) :
    decodeLit l = some ⟨false, digitsVal l, 0, 0⟩ := by
  simp only [decodeLit]
  rw [stripL_eq_self (fun c hc => isSpaceC_of_isDigit (h c hc))]
  cases l with
  | nil => exact absurd rfl hne
  | cons c t =>
    rw [if_neg (by simp), List.headD_cons,
      if_neg (by simp [digit_ne_plus (h c (by simp))]),
      if_neg (by simp [digit_ne_minus (h c (by simp))]),
      decodeUnsigned_of_digits (by simp) h]
    rfl

theorem litVal_of_nat (v : ℕ) : litVal ⟨false, v, 0, 0⟩ = (v : ℚ) := by
  simp [litVal]

/-! ## C1: how a missing or blank dismissal field is counted -/

/-- Claim C1 (corrected): the code's dismissal count equals the
spec-worded count of present, non-blank, non-"not out" rows PLUS the
number of rows whose `howout` is missing or blank — `fillna("")` turns a
missing value into "", which is then `!= "not out"`, so missing/blank DOES
increment `dismissals` (the claim said it does not). -/
theorem C1_amended (t : List BatRow) :
    dismissalsOf t = dismissalsSpecCount t + blankOrMissingHowout t := by
  induction t with
  | nil => rfl
  | cons r t ih =>
    unfold dismissalsOf dismissalsSpecCount blankOrMissingHowout at ih ⊢
    rcases hr : r.howout with _ | s
    · have e1 : isOut none = true := by decide
      have e2 : ((none : Option String) == none || (none : Option String) == some "") = true := by
        decide
      simp only [List.countP_cons, hr, e1, e2]
      simp
      omega
    · by_cases hs : s = ""
      · subst hs
        have e1 : isOut (some "") = true := by decide
        have e2 : ((some "" : Option String) == none || (some "" : Option String) == some "")
            = true := by decide
        have e3 : (!(("" : String) == "") && !(lowerS "" == "not out")) = false := by decide
        simp only [List.countP_cons, hr, e1, e2, e3]
        simp
        omega
      · have e3 : ((some s : Option String) == none || (some s : Option String) == some "")
            = false := by simp [hs]
        by_cases ho : lowerS s = "not out"
        · have e1 : isOut (some s) = false := by simp [isOut, ho]
          have e2 : (!((s : String) == "") && !(lowerS s == "not out")) = false := by simp [ho]
          simp only [List.countP_cons, hr, e1, e2, e3]
          simp
          omega
        · have e1 : isOut (some s) = true := by simp [isOut, ho]
          have e2 : (!((s : String) == "") && !(lowerS s == "not out")) = true := by
            simp [hs, ho]
          simp only [List.countP_cons, hr, e1, e2, e3]
          simp
          omega

/-- A concrete refutation of claim C1 as stated: a single row whose
`howout` is missing is counted as one dismissal by the code, while the
claim's reading (missing counts as not-out) yields zero. -/
theorem C1_counterexample :
    dismissalsOf [rowHowoutNaN] = 1 ∧ dismissalsSpecCount [rowHowoutNaN] = 0 := by
  decide

/-! ## C2: `overs_to_balls` -/

theorem pyTrunc_natCast (n : ℕ) : pyTrunc (n : ℚ) = n := by
  unfold pyTrunc
  rw [if_pos (by positivity)]
  exact_mod_cast Int.floor_natCast n

theorem oversDecode_digits_dot_digit {ds : List Char} {b : Char} (hne : ds ≠ [])
    (hd : ∀ c ∈ ds, c.isDigit = true) (hb : b.isDigit = true) :
    oversDecode (String.mk (ds ++ '.' :: [b]))
      = (some ⟨false, digitsVal ds, 0, 0⟩, some (some ⟨false, b.toNat - 48, 0, 0⟩)) := by
  have htl : (String.mk (ds ++ '.' :: [b])).toList = ds ++ '.' :: [b] := rfl
  have hstrip : stripL (ds ++ '.' :: [b]) = ds ++ '.' :: [b] := by
    apply stripL_eq_self
    intro c hc
    rcases List.mem_append.mp hc with h | h
    · exact isSpaceC_of_isDigit (hd c h)
    · rcases List.mem_cons.mp h with rfl | h
      · decide
      · rcases List.mem_singleton.mp h with rfl
        exact isSpaceC_of_isDigit hb
  simp only [oversDecode]
  rw [htl, hstrip, splitOnce_digits_append [b] hd]
  dsimp only
  rw [decodeLit_of_digits hne hd,
    decodeLit_of_digits (by simp) (by intro c hc; rcases List.mem_singleton.mp hc with rfl; exact hb)]
  have : digitsVal [b] = b.toNat - 48 := by simp [digitsVal]
  rw [this]

theorem oversDecode_digits_only {ds : List Char} (hne : ds ≠ [])
    (hd : ∀ c ∈ ds, c.isDigit = true) :
    oversDecode (String.mk ds) = (some ⟨false, digitsVal ds, 0, 0⟩, none) := by
  have htl : (String.mk ds).toList = ds := rfl
  have hstrip : stripL ds = ds :=
    stripL_eq_self (fun c hc => isSpaceC_of_isDigit (hd c hc))
  simp only [oversDecode]
  rw [htl, hstrip, splitOnce_of_digits hd]
  dsimp only
  rw [decodeLit_of_digits hne hd]

/-- Claim C2 (corrected): the per-element arithmetic satisfies all the
claimed identities, but the series-level function is NOT total: column 1 of
`str.split(".", n=1, expand=True)` exists only when some element of the
series contains a ".", so on a series with no "." at all (`["4"]`, `[""]`,
`["bad"]`) the subscript `parts[1]` raises a `KeyError` instead of
returning.  When at least one element contains a ".", the function returns
the element-wise values, and the element arithmetic gives
`"N.B" ↦ N*6 + B`, `"N" ↦ N*6`, `"" ↦ 0`, `"bad" ↦ 0`. -/
theorem C2_amended :
    (∀ xs : List String, (∃ s ∈ xs, (splitOnce '.' (stripL s.toList)).isSome) →
        overs_to_balls xs = some (xs.map overs_to_balls_elem))
    ∧ (∀ (ds : List Char) (b : Char), ds ≠ [] → (∀ c ∈ ds, c.isDigit = true) →
        b.isDigit = true →
        overs_to_balls_elem (String.mk (ds ++ '.' :: [b]))
          = 6 * (digitsVal ds : ℤ) + ((b.toNat - 48 : ℕ) : ℤ))
    ∧ (∀ ds : List Char, ds ≠ [] → (∀ c ∈ ds, c.isDigit = true) →
        overs_to_balls_elem (String.mk ds) = 6 * (digitsVal ds : ℤ))
    ∧ overs_to_balls_elem "" = 0 ∧ overs_to_balls_elem "bad" = 0 := by
  refine ⟨?_, ?_, ?_, ?_, ?_⟩
  · intro xs hxs
    unfold overs_to_balls
    rw [if_pos]
    rw [List.any_eq_true]
    obtain ⟨s, hs, hdot⟩ := hxs
    exact ⟨s, hs, hdot⟩
  · intro ds b hne hd hb
    simp only [overs_to_balls_elem, oversDecode_digits_dot_digit hne hd hb]
    simp [litVal_of_nat]
    rw [show ((digitsVal ds : ℚ) * 6 + ((b.toNat - 48 : ℕ) : ℚ))
        = ((6 * digitsVal ds + (b.toNat - 48) : ℕ) : ℚ) by push_cast; ring,
      pyTrunc_natCast]
    push_cast
    ring
  · intro ds hne hd
    simp only [overs_to_balls_elem, oversDecode_digits_only hne hd]
    simp [litVal_of_nat]
    rw [show ((digitsVal ds : ℚ) * 6) = ((6 * digitsVal ds : ℕ) : ℚ) by push_cast; ring,
      pyTrunc_natCast]
    push_cast
    ring
  · have h1 : oversDecode "" = (none, none) := by decide
    simp only [overs_to_balls_elem, h1]
    simp
    simpa using pyTrunc_natCast 0
  · have h1 : oversDecode "bad" = (none, none) := by decide
    simp only [overs_to_balls_elem, h1]
    simp
    simpa using pyTrunc_natCast 0

/-- A concrete refutation of claim C2 as stated: on the one-element series
`["4"]` (an integer-only overs value), the code raises a `KeyError`
(`parts[1]` does not exist) instead of returning `4 * 6 = 24`. -/
theorem C2_counterexample :
    overs_to_balls ["4"] = none ∧ (none : Option (List ℤ)) ≠ some [24] := by
  constructor
  · decide
  · decide

/-- Witness: on a series that does contain a dotted element, the claimed
arithmetic holds: `"3.3"` is 3 overs and 3 balls, 21 balls. -/
theorem C2_witness : overs_to_balls ["3.3"] = some [21] := by
  rw [C2_amended.1 ["3.3"] ⟨"3.3", by simp, by decide⟩]
  have h2 := C2_amended.2.1 ['3'] '3' (by simp) (by decide) (by decide)
  have e : overs_to_balls_elem "3.3" = 21 := by
    rw [show ("3.3" : String) = String.mk (['3'] ++ '.' :: ['3']) from rfl, h2]
    decide
  simp only [List.map_cons, List.map_nil, e]

/-! ## C3: zero-denominator rate metrics -/

theorem pyDiv_den_zero_roundTo (d : ℕ) (a : ℚ) :
    (pyDiv a 0).roundTo d
      = (if 0 < a then PFloat.inf else if a < 0 then PFloat.ninf else PFloat.nan) := by
  unfold pyDiv
  rw [if_neg (by simp)]
  split_ifs <;> rfl

theorem pyDiv_scaled_den_zero (d : ℕ) (a c : ℚ) (hc : 0 < c) :
    (pyDiv (a * c) 0).roundTo d
      = (if 0 < a then PFloat.inf else if a < 0 then PFloat.ninf else PFloat.nan) := by
  rw [pyDiv_den_zero_roundTo d (a * c)]
  have h1 : (0 < a * c) ↔ (0 < a) := ⟨fun h => by nlinarith, fun h => by positivity⟩
  have h2 : (a * c < 0) ↔ (a < 0) := ⟨fun h => by nlinarith, fun h => by nlinarith⟩
  simp only [h1, h2]

/-- Claim C3 (corrected): every rate computation here is a total function
(no exception is possible), and the SCALAR summary blocks do render every
zero-denominator rate as the "—" placeholder; but in the GROUPED comparison
tables the divisions are unguarded: a zero denominator yields NaN (shown as
a missing value) only when the numerator is zero too, while a positive
numerator yields +infinity — a numeric cell, not a placeholder. Only the
batting average is guarded in the grouped table (NaN when dismissals are
zero, even with positive runs). -/
theorem C3_amended (t : List BatRow) (tb : List BowlRow) (k : String) :
    ((batScalar t).dismissals = 0 → (batScalar t).avgDisp = none)
    ∧ ((batScalar t).balls = 0 → (batScalar t).srDisp = none)
    ∧ ((bowlScalar tb).ballsBowled = 0 → (bowlScalar tb).econDisp = none)
    ∧ ((bowlScalar tb).wkts = 0 →
        (bowlScalar tb).avgDisp = none ∧ (bowlScalar tb).srDisp = none)
    ∧ (dismissalsOf (batGroup t k) = 0 → (mkBatSumRow t k).avg = PFloat.nan)
    ∧ ((mkBatSumRow t k).balls = 0 → (mkBatSumRow t k).sr =
        (if 0 < (mkBatSumRow t k).runs then PFloat.inf
          else if (mkBatSumRow t k).runs < 0 then PFloat.ninf else PFloat.nan))
    ∧ ((mkBowlSumRow tb k).balls = 0 → (mkBowlSumRow tb k).econ =
        (if 0 < (mkBowlSumRow tb k).runs then PFloat.inf
          else if (mkBowlSumRow tb k).runs < 0 then PFloat.ninf else PFloat.nan))
    ∧ ((mkBowlSumRow tb k).wickets = 0 → (mkBowlSumRow tb k).avg =
        (if 0 < (mkBowlSumRow tb k).runs then PFloat.inf
          else if (mkBowlSumRow tb k).runs < 0 then PFloat.ninf else PFloat.nan)) := by
  refine ⟨?_, ?_, ?_, ?_, ?_, ?_, ?_, ?_⟩
  · intro h
    simp only [batScalar] at h ⊢
    rw [if_neg (by omega)]
  · intro h
    simp only [batScalar] at h ⊢
    rw [if_neg (by simp [h])]
  · intro h
    simp only [bowlScalar] at h ⊢
    rw [if_neg (by simp [h])]
  · intro h
    simp only [bowlScalar] at h ⊢
    rw [if_neg (by simp [h]), if_neg (by simp [h])]
    exact ⟨rfl, rfl⟩
  · intro h
    simp only [mkBatSumRow]
    rw [if_neg (by omega)]
  · intro h
    simp only [mkBatSumRow] at h ⊢
    rw [h, pyDiv_scaled_den_zero 2 _ 100 (by norm_num)]
  · intro h
    simp only [mkBowlSumRow] at h ⊢
    rw [h, zero_div, pyDiv_den_zero_roundTo]
  · intro h
    simp only [mkBowlSumRow] at h ⊢
    rw [h, pyDiv_den_zero_roundTo]

/-- A concrete refutation of claim C3 as stated: one innings of 10 runs
with a missing balls value gives a player group with total runs 10 and
total balls 0; the grouped strike rate is +infinity — a numeric value, not
an undefined placeholder. -/
theorem C3_counterexample :
    (bat_summary [rowRuns10BallsNaN]).map (fun r => r.sr) = [PFloat.inf]
    ∧ PFloat.inf ≠ PFloat.nan := by
  refine ⟨?_, by decide⟩
  have hk : batKeys [rowRuns10BallsNaN] = ["a"] := by decide
  have hg : batGroup [rowRuns10BallsNaN] "a" = [rowRuns10BallsNaN] := by decide
  unfold bat_summary
  rw [hk]
  simp only [List.map_cons, List.map_nil, List.insertionSort, List.orderedInsert]
  have hr : sumO ((batGroup [rowRuns10BallsNaN] "a").map (·.runs)) = 10 := by
    rw [hg]; simp [sumO, rowRuns10BallsNaN]
  have hb : sumO ((batGroup [rowRuns10BallsNaN] "a").map (·.balls)) = 0 := by
    rw [hg]; simp [sumO, rowRuns10BallsNaN]
  have : (mkBatSumRow [rowRuns10BallsNaN] "a").sr = PFloat.inf := by
    simp only [mkBatSumRow, hr, hb]
    rw [pyDiv_scaled_den_zero 2 10 100 (by norm_num), if_pos (by norm_num)]
  simp [this]

/-- Witness: on the empty filtered subset every scalar rate renders the
placeholder, and the grouped rates are NaN. -/
theorem C3_witness :
    (batScalar []).avgDisp = none ∧ (batScalar []).srDisp = none
    ∧ (bowlScalar []).econDisp = none
    ∧ (mkBatSumRow [] "p").avg = PFloat.nan
    ∧ (mkBatSumRow [] "p").sr = PFloat.nan := by
  have h := C3_amended [] [] "p"
  refine ⟨h.1 (by decide), h.2.1 (by simp [batScalar, sumO]),
    h.2.2.1 (by decide), h.2.2.2.2.1 (by decide), ?_⟩
  have hs := h.2.2.2.2.2.1 (by simp [mkBatSumRow, batGroup, sumO])
  rw [hs]
  have hr : (mkBatSumRow ([] : List BatRow) "p").runs = 0 := by
    simp [mkBatSumRow, batGroup, sumO]
  rw [hr]
  norm_num

/-! ## C4: innings counts -/

/-- Claim C4 (corrected): the scalar `innings_count` is the row count
(`len(bat_f)`), but the grouped `inns` column is the pandas `count`
aggregation of the `runs` column, which counts only the rows of the group
whose runs value is present: a row with missing runs contributes to the
group but not to `inns`. -/
theorem C4_amended (t : List BatRow) (k : String) :
    (batScalar t).inns = t.length
    ∧ (mkBatSumRow t k).inns = (batGroup t k).countP (fun r => r.runs.isSome) := by
  constructor
  · rfl
  · simp only [mkBatSumRow]
    rw [cntO_eq_countP, List.countP_map]
    rfl

/-- A concrete refutation of claim C4 as stated: a player with two rows,
one of them with a missing runs value, gets `inns = 1` in the grouped
comparison table although the group has 2 rows. -/
theorem C4_counterexample :
    (bat_summary [rowRuns10BallsNaN, rowRunsNaN]).map (fun r => r.inns) = [1]
    ∧ [rowRuns10BallsNaN, rowRunsNaN].length = 2 := by
  constructor
  · have hk : batKeys [rowRuns10BallsNaN, rowRunsNaN] = ["a"] := by decide
    have hi : (mkBatSumRow [rowRuns10BallsNaN, rowRunsNaN] "a").inns = 1 := by
      have hg : batGroup [rowRuns10BallsNaN, rowRunsNaN] "a"
          = [rowRuns10BallsNaN, rowRunsNaN] := by decide
      simp only [mkBatSumRow, hg]
      decide
    unfold bat_summary
    rw [hk]
    simp only [List.map_cons, List.map_nil, List.insertionSort, List.orderedInsert]
    simp [hi]
  · rfl

/-! ## C5: the trend-table economy divides by a rounded denominator -/

theorem rhe_intCast (n : ℤ) : rhe (n : ℚ) = n := by
  simp only [rhe]
  rw [Int.floor_intCast, sub_self, if_pos (by norm_num)]

theorem rhe_of_lt_half {q : ℚ} {n : ℤ} (h1 : (n : ℚ) ≤ q) (h2 : q - n < 1 / 2) :
    rhe q = n := by
  simp only [rhe]
  have hf : ⌊q⌋ = n := Int.floor_eq_iff.mpr ⟨h1, by linarith⟩
  rw [hf, if_pos h2]

theorem roundQ_of_mul_pow_intCast {d : ℕ} {q : ℚ} {n : ℤ} (h : q * 10 ^ d = (n : ℚ)) :
    roundQ d q = q := by
  unfold roundQ
  rw [h, rhe_intCast, ← h]
  field_simp

/-- Claim C5 (corrected): in the trend table, `economy` is NOT
`runs_conceded * 6 / balls_bowled`; it is `runs_conceded` divided by the
overs-equivalent `balls_bowled / 6` ALREADY ROUNDED to one decimal place
(`overs_bowled`), then rounded to two places. The claimed formula is
recovered exactly when `balls_bowled` is divisible by 3 (so the one-decimal
rounding of `balls/6` is exact); with a zero denominator the result is an
inf/NaN float, not a placeholder. -/
theorem C5_amended (t : List BowlRow) (k : String × String) :
    ((3 : ℤ) ∣ ((t.filter (fun r => decide (trendKeyBowl r = some k))).map (·.balls_bowled)).sum →
      ((t.filter (fun r => decide (trendKeyBowl r = some k))).map (·.balls_bowled)).sum ≠ 0 →
      (mkWmRow t k).economy
        = PFloat.fin (roundQ 2
            ((mkWmRow t k).runs_conceded * 6 / (mkWmRow t k).balls_bowled)))
    ∧ ((mkWmRow t k).balls_bowled = 0 → (mkWmRow t k).economy =
        (if 0 < (mkWmRow t k).runs_conceded then PFloat.inf
          else if (mkWmRow t k).runs_conceded < 0 then PFloat.ninf else PFloat.nan))
    ∧ (mkWmRow t k).economy
        = (pyDiv (mkWmRow t k).runs_conceded
            (roundQ 1 ((mkWmRow t k).balls_bowled / 6))).roundTo 2 := by
  refine ⟨?_, ?_, ?_⟩
  · intro h3 hne
    obtain ⟨c, hc⟩ := h3
    simp only [mkWmRow]
    have hr : roundQ 1
        (((((t.filter (fun r => decide (trendKeyBowl r = some k))).map
            (·.balls_bowled)).sum : ℤ) : ℚ) / 6)
        = ((((t.filter (fun r => decide (trendKeyBowl r = some k))).map
            (·.balls_bowled)).sum : ℤ) : ℚ) / 6 := by
      apply roundQ_of_mul_pow_intCast (n := 5 * c)
      rw [hc]
      push_cast
      ring
    rw [hr]
    have hb : ((((t.filter (fun r => decide (trendKeyBowl r = some k))).map
        (·.balls_bowled)).sum : ℤ) : ℚ) ≠ 0 := by
      exact_mod_cast hne
    unfold pyDiv
    rw [if_pos (by positivity)]
    rw [div_div_eq_mul_div]
    rfl
  · intro h
    simp only [mkWmRow] at h ⊢
    rw [h, zero_div]
    have h0 : roundQ 1 (0 : ℚ) = 0 := by
      apply roundQ_of_mul_pow_intCast (n := 0)
      push_cast
      ring
    rw [h0, pyDiv_den_zero_roundTo]
  · simp only [mkWmRow]

/-- A concrete refutation of claim C5 as stated: 13 runs conceded off 8
balls. The claimed economy is `13 * 6 / 8 = 9.75` (already exact at two
decimals), but the code computes `round(8/6, 1) = 1.3` overs and reports
`13 / 1.3 = 10`. -/
theorem C5_counterexample :
    (wmOf [rowBowl13off8]).map (fun r => r.economy) = [PFloat.fin 10]
    ∧ roundQ 2 ((13 : ℚ) * 6 / 8) = 39 / 4
    ∧ (10 : ℚ) ≠ 39 / 4 := by
  refine ⟨?_, ?_, by norm_num⟩
  · have hk : wmKeys [rowBowl13off8] = [("t", "o")] := by decide
    have hg : [rowBowl13off8].filter
        (fun r => decide (trendKeyBowl r = some ("t", "o"))) = [rowBowl13off8] := by decide
    unfold wmOf
    rw [hk]
    simp only [List.map_cons, List.map_nil]
    have he : (mkWmRow [rowBowl13off8] ("t", "o")).economy = PFloat.fin 10 := by
      simp only [mkWmRow, hg]
      have hrc : sumO ([rowBowl13off8].map (·.runsconceded)) = 13 := by
        simp [sumO, rowBowl13off8]
      have hbb : ([rowBowl13off8].map (·.balls_bowled)).sum = (8 : ℤ) := by decide
      rw [hrc, hbb, show (((8 : ℤ) : ℚ)) = (8 : ℚ) by norm_num]
      have hround : roundQ 1 ((8 : ℚ) / 6) = 13 / 10 := by
        unfold roundQ
        rw [show ((8 : ℚ) / 6 * 10 ^ 1) = 40 / 3 by norm_num,
          rhe_of_lt_half (n := 13) (by norm_num) (by norm_num)]
        norm_num
      rw [hround]
      unfold pyDiv
      rw [if_pos (by norm_num), show (13 : ℚ) / (13 / 10) = 10 by norm_num]
      show PFloat.fin (roundQ 2 10) = PFloat.fin 10
      rw [roundQ_of_mul_pow_intCast (n := 1000) (by push_cast; ring)]
    simp [he]
  · rw [show ((13 : ℚ) * 6 / 8) = 39 / 4 by norm_num,
      roundQ_of_mul_pow_intCast (n := 975) (by push_cast; ring)]

/-- Witness: with a whole number of overs (6 balls, divisible by 3) the
rounding is exact and the claimed formula holds. -/
theorem C5_witness :
    (mkWmRow [rowBowl5off6] ("t", "o")).economy
      = PFloat.fin (roundQ 2
          ((mkWmRow [rowBowl5off6] ("t", "o")).runs_conceded * 6
            / (mkWmRow [rowBowl5off6] ("t", "o")).balls_bowled)) := by
  have hB : (([rowBowl5off6].filter
      (fun r => decide (trendKeyBowl r = some ("t", "o")))).map (·.balls_bowled)).sum
      = (6 : ℤ) := by decide
  exact (C5_amended [rowBowl5off6] ("t", "o")).1
    (by rw [hB]; exact ⟨2, by norm_num⟩) (by rw [hB]; norm_num)

/-! ## C6: outer join and the win/loss label -/

theorem mkBmRow_fst (t : List BatRow) (k : String × String) :
    (mkBmRow t k).tournamentkey = k.1 ∧ (mkBmRow t k).opponent = k.2 := by
  constructor <;> simp [mkBmRow]

theorem mkWmRow_fst (t : List BowlRow) (k : String × String) :
    (mkWmRow t k).tournamentkey = k.1 ∧ (mkWmRow t k).opponent = k.2 := by
  constructor <;> simp [mkWmRow]

theorem mkMmRow_fst (bm : List BmRow) (wm : List WmRow) (k : String × String) :
    (mkMmRow bm wm k).tournamentkey = k.1 ∧ (mkMmRow bm wm k).opponent = k.2 := by
  constructor <;> simp [mkMmRow]

theorem bmOf_keys (t : List BatRow) :
    (bmOf t).map (fun r => (r.tournamentkey, r.opponent)) = bmKeys t := by
  unfold bmOf
  rw [List.map_map]
  have h : ((fun r : BmRow => (r.tournamentkey, r.opponent)) ∘ mkBmRow t) = fun k => k := by
    funext k
    simp [mkBmRow]
  rw [h]
  simp

theorem wmOf_keys (t : List BowlRow) :
    (wmOf t).map (fun r => (r.tournamentkey, r.opponent)) = wmKeys t := by
  unfold wmOf
  rw [List.map_map]
  have h : ((fun r : WmRow => (r.tournamentkey, r.opponent)) ∘ mkWmRow t) = fun k => k := by
    funext k
    simp [mkWmRow]
  rw [h]
  simp

theorem mmOf_keys (bm : List BmRow) (wm : List WmRow) :
    (mmOf bm wm).map (fun r => (r.tournamentkey, r.opponent)) = mmKeysOf bm wm := by
  unfold mmOf
  rw [List.map_map]
  have h : ((fun r : MmRow => (r.tournamentkey, r.opponent)) ∘ mkMmRow bm wm)
      = fun k => k := by
    funext k
    simp [mkMmRow]
  rw [h]
  simp

theorem findBm_eq_none_of_not_mem {t : List BatRow} {k : String × String}
    (h : ¬ ∃ rb ∈ t, trendKeyBat rb = some k) : findBm (bmOf t) k = none := by
  rw [findBm, List.find?_eq_none]
  intro x hx
  rw [bmOf, List.mem_map] at hx
  obtain ⟨k', hk', rfl⟩ := hx
  intro hpred
  rw [Bool.and_eq_true, beq_iff_eq, beq_iff_eq] at hpred
  obtain ⟨h1, h2⟩ := hpred
  rw [(mkBmRow_fst t k').1] at h1
  rw [(mkBmRow_fst t k').2] at h2
  have hkk : k' = k := Prod.ext h1 h2
  subst hkk
  rw [bmKeys, List.mem_dedup, List.mem_filterMap] at hk'
  exact h hk'

theorem findWm_eq_none_of_not_mem {t : List BowlRow} {k : String × String}
    (h : ¬ ∃ rw ∈ t, trendKeyBowl rw = some k) : findWm (wmOf t) k = none := by
  rw [findWm, List.find?_eq_none]
  intro x hx
  rw [wmOf, List.mem_map] at hx
  obtain ⟨k', hk', rfl⟩ := hx
  intro hpred
  rw [Bool.and_eq_true, beq_iff_eq, beq_iff_eq] at hpred
  obtain ⟨h1, h2⟩ := hpred
  rw [(mkWmRow_fst t k').1] at h1
  rw [(mkWmRow_fst t k').2] at h2
  have hkk : k' = k := Prod.ext h1 h2
  subst hkk
  rw [wmKeys, List.mem_dedup, List.mem_filterMap] at hk'
  exact h hk'

/-- The `result` field of a merged row, as a standalone equation. -/
theorem mkMmRow_result (bm : List BmRow) (wm : List WmRow) (k : String × String) :
    (mkMmRow bm wm k).result
      = (if ((mkMmRow bm wm k).run_rate.notna
            && (mkMmRow bm wm k).opposition_run_rate.notna
            && (mkMmRow bm wm k).run_rate.gtB (mkMmRow bm wm k).opposition_run_rate)
          then "Won" else "Lost") := by
  simp only [mkMmRow]

/-- Claim C6 (corrected): the combined table does have exactly one row per
distinct grouping key present in either filtered aggregate (outer join),
and a row whose key is absent from one side is always "Lost"; but "Won"
means both rates are non-NaN — NOT "defined" in the spec's sense — and
`run_rate` is +infinity (non-NaN) whenever the batting group has positive
runs and zero balls faced, so such a row is labelled "Won" against any
smaller opposition rate even though the spec calls its run rate undefined.
(When the batting aggregate is empty and the bowling one is not, the code
raises a `KeyError` instead — the `none` case of `teamTrends`.) -/
theorem C6_amended (bat : List BatRow) (bowl : List BowlRow) (q : String)
    (tourns : List String) (mm : List MmRow)
    (h : teamTrends bat bowl q tourns = some mm) :
    ((mm.map (fun r => (r.tournamentkey, r.opponent))).Nodup)
    ∧ (∀ k : String × String,
        ((∃ r ∈ mm, (r.tournamentkey, r.opponent) = k) ↔
          ((∃ rb ∈ bat_team q (tournFilterBat tourns (bat.map normBat)),
              trendKeyBat rb = some k)
            ∨ (∃ rw ∈ bowl_team q (tournFilterBowl tourns (bowl.map normBowl)),
                trendKeyBowl rw = some k))))
    ∧ (∀ r ∈ mm, r.result = "Won" ∨ r.result = "Lost")
    ∧ (∀ r ∈ mm, (r.result = "Won" ↔
        (r.run_rate.notna = true ∧ r.opposition_run_rate.notna = true
          ∧ r.run_rate.gtB r.opposition_run_rate = true)))
    ∧ (∀ r ∈ mm,
        (¬ ∃ rb ∈ bat_team q (tournFilterBat tourns (bat.map normBat)),
            trendKeyBat rb = some (r.tournamentkey, r.opponent)) → r.result = "Lost")
    ∧ (∀ r ∈ mm,
        (¬ ∃ rw ∈ bowl_team q (tournFilterBowl tourns (bowl.map normBowl)),
            trendKeyBowl rw = some (r.tournamentkey, r.opponent)) → r.result = "Lost") := by
  simp only [teamTrends] at h
  split at h
  · exact absurd h (by simp)
  · have hmm : mm = mmOf (bmOf (bat_team q (tournFilterBat tourns (bat.map normBat))))
        (wmOf (bowl_team q (tournFilterBowl tourns (bowl.map normBowl)))) :=
      (Option.some.inj h).symm
    subst hmm
    refine ⟨?_, ?_, ?_, ?_, ?_, ?_⟩
    · rw [mmOf_keys]
      exact List.nodup_dedup _
    · intro k
      have h1 : (∃ r ∈ mmOf (bmOf (bat_team q (tournFilterBat tourns (bat.map normBat))))
          (wmOf (bowl_team q (tournFilterBowl tourns (bowl.map normBowl)))),
            (r.tournamentkey, r.opponent) = k)
          ↔ k ∈ (mmOf (bmOf (bat_team q (tournFilterBat tourns (bat.map normBat))))
            (wmOf (bowl_team q (tournFilterBowl tourns (bowl.map normBowl))))).map
              (fun r => (r.tournamentkey, r.opponent)) := by
        rw [List.mem_map]
      rw [h1, mmOf_keys, mmKeysOf, List.mem_dedup, List.mem_append, bmOf_keys, wmOf_keys,
        bmKeys, wmKeys, List.mem_dedup, List.mem_dedup, List.mem_filterMap,
        List.mem_filterMap]
    · intro r hr
      rw [mmOf, List.mem_map] at hr
      obtain ⟨k, _, rfl⟩ := hr
      rw [mkMmRow_result]
      split
      · exact Or.inl rfl
      · exact Or.inr rfl
    · intro r hr
      rw [mmOf, List.mem_map] at hr
      obtain ⟨k, _, rfl⟩ := hr
      rw [mkMmRow_result]
      split
      · rename_i hc
        rw [Bool.and_eq_true, Bool.and_eq_true] at hc
        simp only [true_iff]
        exact ⟨hc.1.1, hc.1.2, hc.2⟩
      · rename_i hc
        rw [Bool.and_eq_true, Bool.and_eq_true] at hc
        constructor
        · intro hw
          exact absurd hw (by decide)
        · intro ⟨h1, h2, h3⟩
          exact absurd ⟨⟨h1, h2⟩, h3⟩ hc
    · intro r hr habs
      rw [mmOf, List.mem_map] at hr
      obtain ⟨k, _, rfl⟩ := hr
      rw [(mkMmRow_fst _ _ k).1, (mkMmRow_fst _ _ k).2, Prod.mk.eta] at habs
      have hfind := findBm_eq_none_of_not_mem habs
      simp only [mkMmRow, hfind]
      rw [if_neg]
      simp [PFloat.notna]
    · intro r hr habs
      rw [mmOf, List.mem_map] at hr
      obtain ⟨k, _, rfl⟩ := hr
      rw [(mkMmRow_fst _ _ k).1, (mkMmRow_fst _ _ k).2, Prod.mk.eta] at habs
      have hfind := findWm_eq_none_of_not_mem habs
      simp only [mkMmRow, hfind]
      rw [if_neg]
      simp [PFloat.notna]

/-- Witness: on a table with one batting group and one bowling group for
the same key, the outer join has exactly one row per distinct key. -/
theorem C6_witness :
    ((mmOf (bmOf (bat_team "" (tournFilterBat [] ([rowAlice].map normBat))))
      (wmOf (bowl_team "" (tournFilterBowl [] ([rowBowl5off6].map normBowl))))).map
        (fun r => (r.tournamentkey, r.opponent))).Nodup := by
  have h : teamTrends [rowAlice] [rowBowl5off6] "" []
      = some (mmOf (bmOf (bat_team "" (tournFilterBat [] ([rowAlice].map normBat))))
        (wmOf (bowl_team "" (tournFilterBowl [] ([rowBowl5off6].map normBowl))))) := rfl
  exact (C6_amended [rowAlice] [rowBowl5off6] "" [] _ h).1

/-- A concrete refutation of claim C6 as stated: the batting group scored
10 runs with balls faced summing to 0 (the claim calls its run rate
undefined, so the row must be "Lost"), the bowling side conceded 5 runs off
6 balls (opposition rate 5.0); the code computes `run_rate = inf`, treats
it as defined, and labels the row "Won". -/
theorem C6_counterexample :
    ((teamTrends [rowRuns10BallsNaN] [rowBowl5off6] "" []).getD []).map
      (fun r => (r.result, r.run_rate, r.runs_scored, r.balls_faced, r.opposition_run_rate))
      = [("Won", PFloat.inf, some (10 : ℚ), some (0 : ℚ), PFloat.fin 5)] := by
  have h : teamTrends [rowRuns10BallsNaN] [rowBowl5off6] "" []
      = some (mmOf (bmOf (bat_team "" (tournFilterBat [] ([rowRuns10BallsNaN].map normBat))))
        (wmOf (bowl_team "" (tournFilterBowl [] ([rowBowl5off6].map normBowl))))) := rfl
  rw [h, Option.getD_some]
  have hBT : bat_team "" (tournFilterBat [] ([rowRuns10BallsNaN].map normBat))
      = [normBat rowRuns10BallsNaN] := by decide
  have hWT : bowl_team "" (tournFilterBowl [] ([rowBowl5off6].map normBowl))
      = [normBowl rowBowl5off6] := by decide
  rw [hBT, hWT]
  have hgb : [normBat rowRuns10BallsNaN].filter
      (fun r => decide (trendKeyBat r = some ("t", "o"))) = [normBat rowRuns10BallsNaN] := by
    decide
  have hgw : [normBowl rowBowl5off6].filter
      (fun r => decide (trendKeyBowl r = some ("t", "o"))) = [normBowl rowBowl5off6] := by
    decide
  have hr10 : sumO ([normBat rowRuns10BallsNaN].map (·.runs)) = 10 := by
    simp [sumO, normBat, rowRuns10BallsNaN]
  have hb0 : sumO ([normBat rowRuns10BallsNaN].map (·.balls)) = 0 := by
    simp [sumO, normBat, rowRuns10BallsNaN]
  have hrc : sumO ([normBowl rowBowl5off6].map (·.runsconceded)) = 5 := by
    simp [sumO, normBowl, rowBowl5off6, rowBowl13off8]
  have hbb : ([normBowl rowBowl5off6].map (·.balls_bowled)).sum = (6 : ℤ) := by decide
  have hbmk : bmKeys [normBat rowRuns10BallsNaN] = [("t", "o")] := by decide
  have hwmk : wmKeys [normBowl rowBowl5off6] = [("t", "o")] := by decide
  have hbm : bmOf [normBat rowRuns10BallsNaN]
      = [mkBmRow [normBat rowRuns10BallsNaN] ("t", "o")] := by
    unfold bmOf
    rw [hbmk]
    rfl
  have hwm : wmOf [normBowl rowBowl5off6]
      = [mkWmRow [normBowl rowBowl5off6] ("t", "o")] := by
    unfold wmOf
    rw [hwmk]
    rfl
  have hrr : (mkBmRow [normBat rowRuns10BallsNaN] ("t", "o")).run_rate = PFloat.inf := by
    simp only [mkBmRow, hgb, hr10, hb0]
    rw [pyDiv_scaled_den_zero 2 10 6 (by norm_num), if_pos (by norm_num)]
  have hbf : (mkBmRow [normBat rowRuns10BallsNaN] ("t", "o")).balls_faced = 0 := by
    simp only [mkBmRow, hgb, hb0]
  have hrs : (mkBmRow [normBat rowRuns10BallsNaN] ("t", "o")).runs_scored = 10 := by
    simp only [mkBmRow, hgb, hr10]
  have hwrc : (mkWmRow [normBowl rowBowl5off6] ("t", "o")).runs_conceded = 5 := by
    simp only [mkWmRow, hgw, hrc]
  have hwbb : (mkWmRow [normBowl rowBowl5off6] ("t", "o")).balls_bowled = ((6 : ℤ) : ℚ) := by
    simp only [mkWmRow, hgw, hbb]
  have hfb : findBm (bmOf [normBat rowRuns10BallsNaN]) ("t", "o")
      = some (mkBmRow [normBat rowRuns10BallsNaN] ("t", "o")) := by
    rw [hbm, findBm]
    apply List.find?_cons_of_pos
    rw [(mkBmRow_fst _ _).1, (mkBmRow_fst _ _).2]
    decide
  have hfw : findWm (wmOf [normBowl rowBowl5off6]) ("t", "o")
      = some (mkWmRow [normBowl rowBowl5off6] ("t", "o")) := by
    rw [hwm, findWm]
    apply List.find?_cons_of_pos
    rw [(mkWmRow_fst _ _).1, (mkWmRow_fst _ _).2]
    decide
  have horr : (pyDiv ((mkWmRow [normBowl rowBowl5off6] ("t", "o")).runs_conceded * 6)
      (mkWmRow [normBowl rowBowl5off6] ("t", "o")).balls_bowled).roundTo 2
      = PFloat.fin 5 := by
    rw [hwrc, hwbb, show (((6 : ℤ) : ℚ)) = (6 : ℚ) by norm_num]
    unfold pyDiv
    rw [if_pos (by norm_num), show (5 : ℚ) * 6 / 6 = 5 by norm_num]
    show PFloat.fin (roundQ 2 5) = PFloat.fin 5
    rw [roundQ_of_mul_pow_intCast (n := 500) (by push_cast; ring)]
  have hkeys : mmKeysOf (bmOf [normBat rowRuns10BallsNaN]) (wmOf [normBowl rowBowl5off6])
      = [("t", "o")] := by
    rw [mmKeysOf, hbm, hwm]
    simp only [List.map_cons, List.map_nil, (mkBmRow_fst _ _).1, (mkBmRow_fst _ _).2,
      (mkWmRow_fst _ _).1, (mkWmRow_fst _ _).2]
    decide
  unfold mmOf
  rw [hkeys]
  simp only [List.map_cons, List.map_nil]
  simp only [mkMmRow, hfb, hfw]
  rw [hrr, horr]
  simp [hbf, hrs, PFloat.notna, PFloat.gtB]

/-! ## C7: grouped totals vs the ungrouped total -/

theorem sumO_filter_decomp (p q : BatRow → Bool) (hpq : ∀ r, q r = true → p r = true)
    (t : List BatRow) :
    sumO ((t.filter p).map (·.runs))
      = sumO ((t.filter q).map (·.runs))
        + sumO ((t.filter (fun r => p r && !q r)).map (·.runs)) := by
  induction t with
  | nil => simp [sumO]
  | cons r t ih =>
    by_cases hq : q r = true
    · have hp := hpq r hq
      simp [List.filter_cons, hp, hq, sumO_cons]
      rw [ih]
      ring
    · rw [Bool.not_eq_true] at hq
      by_cases hp : p r = true
      · simp [List.filter_cons, hp, hq, sumO_cons]
        rw [ih]
        ring
      · rw [Bool.not_eq_true] at hp
        simp [List.filter_cons, hp, hq]
        exact ih

theorem grouped_partition {K : Type} [DecidableEq K] (key : BatRow → Option K) :
    ∀ (ks : List K) (t : List BatRow), ks.Nodup →
      (∀ r ∈ t, ∀ k, key r = some k → k ∈ ks) →
      (ks.map (keyedRunsSum key t)).sum
        = sumO ((t.filter (fun r => (key r).isSome)).map (·.runs)) := by
  intro ks
  induction ks with
  | nil =>
    intro t _ h
    have hnil : t.filter (fun r => (key r).isSome) = [] := by
      rw [List.filter_eq_nil_iff]
      intro r hr hsome
      obtain ⟨k, hk⟩ := Option.isSome_iff_exists.mp hsome
      exact absurd (h r hr k hk) (List.not_mem_nil k)
    simp [hnil, sumO]
  | cons k ks ih =>
    intro t hnd h
    have hknotin : k ∉ ks := (List.nodup_cons.mp hnd).1
    have hndtl : ks.Nodup := (List.nodup_cons.mp hnd).2
    have hmap : ∀ k' ∈ ks, keyedRunsSum key t k'
        = keyedRunsSum key (t.filter (fun r => !(decide (key r = some k)))) k' := by
      intro k' hk'
      have hkk : k' ≠ k := fun he => hknotin (he ▸ hk')
      have hf : t.filter (fun a => decide (key a = some k') && !decide (key a = some k))
          = t.filter (fun a => decide (key a = some k')) := by
        apply List.filter_congr
        intro r _
        by_cases hr : key r = some k'
        · simp [hr, hkk]
        · simp [hr]
      unfold keyedRunsSum
      rw [List.filter_filter, hf]
    have hside : ∀ r ∈ t.filter (fun r => !(decide (key r = some k))), ∀ k',
        key r = some k' → k' ∈ ks := by
      intro r hr k' hk'
      have hrt : r ∈ t := List.mem_of_mem_filter hr
      have hnotk : ¬ (key r = some k) := by
        have hh := List.of_mem_filter hr
        simpa using hh
      rcases List.mem_cons.mp (h r hrt k' hk') with rfl | hmem
      · exact absurd hk' hnotk
      · exact hmem
    have hih := ih (t.filter (fun r => !(decide (key r = some k)))) hndtl hside
    rw [List.map_cons, List.sum_cons, List.map_congr_left hmap, hih]
    have hdecomp := sumO_filter_decomp (fun r => (key r).isSome)
      (fun r => decide (key r = some k))
      (by
        intro r hr
        rw [decide_eq_true_eq] at hr
        simp [hr]) t
    rw [hdecomp, List.filter_filter]
    rfl

/-- Claim C7 (corrected): the sum of group-level `total_runs` over the
groups equals the ungrouped `total_runs` of the rows whose grouping-key
cells are all PRESENT — pandas `groupby` silently drops a row whose key is
NaN, so the identity with the full ungrouped total holds only when every
row has a key. -/
theorem C7_amended {K : Type} [DecidableEq K] (key : BatRow → Option K) (t : List BatRow) :
    groupedRunsTotal key t = total_runs (t.filter (fun r => (key r).isSome))
    ∧ ((∀ r ∈ t, (key r).isSome) → groupedRunsTotal key t = total_runs t) := by
  have h1 : groupedRunsTotal key t = total_runs (t.filter (fun r => (key r).isSome)) := by
    unfold groupedRunsTotal total_runs
    apply grouped_partition
    · exact List.nodup_dedup _
    · intro r hr k hk
      rw [List.mem_dedup, List.mem_filterMap]
      exact ⟨r, hr, hk⟩
  refine ⟨h1, fun hall => ?_⟩
  rw [h1]
  congr 1
  rw [List.filter_eq_self]
  exact hall

/-- A concrete refutation of claim C7 as stated: a single row with 7 runs
but a missing tournament key is dropped by the groupby, so the grouped
totals sum to 0 while the ungrouped total is 7. -/
theorem C7_counterexample :
    groupedRunsTotal trendKeyBat [rowKeyNaN] ≠ total_runs [rowKeyNaN] := by
  have h1 : groupedRunsTotal trendKeyBat [rowKeyNaN] = 0 := by
    have hfm : ([rowKeyNaN].filterMap trendKeyBat) = [] := by decide
    unfold groupedRunsTotal
    rw [hfm]
    rfl
  have h2 : total_runs [rowKeyNaN] = 7 := by
    simp [total_runs, sumO, rowKeyNaN, rowRuns10BallsNaN]
  rw [h1, h2]
  norm_num

/-- Witness: when every row's grouping key is present the identity holds. -/
theorem C7_witness :
    groupedRunsTotal trendKeyBat [rowAlice, rowBob] = total_runs [rowAlice, rowBob] :=
  (C7_amended trendKeyBat [rowAlice, rowBob]).2 (by decide)

/-! ## C8: filters compose as a pure conjunction -/

theorem maskFilter_map {α : Type} (g : α → Bool) (t : List α) :
    maskFilter t (t.map g) = t.filter g := by
  induction t with
  | nil => rfl
  | cons r t ih =>
    unfold maskFilter at ih ⊢
    cases hg : g r <;>
      simp [List.filterMap_cons, List.filter_cons, hg, ih]

theorem maskFilter_const_true {α : Type} (t : List α) :
    maskFilter t (t.map (fun _ => true)) = t := by
  rw [maskFilter_map]
  induction t with
  | nil => rfl
  | cons r t ih => simp [List.filter_cons, ih]

theorem bat_team_eq (q : String) (t : List BatRow) :
    bat_team q t = (if lowerS (stripS q) == "" then t
      else t.filter (fun r =>
        containsS (lowerS ((r.battingteam).getD "nan")) (lowerS (stripS q)))) := by
  simp only [bat_team, pick_team_mask]
  by_cases hq : (lowerS (stripS q) == "") = true
  · rw [if_pos hq, if_pos hq, List.map_map]
    exact maskFilter_const_true t
  · rw [if_neg hq, if_neg hq, List.map_map]
    exact maskFilter_map _ t

theorem bowl_team_eq (q : String) (t : List BowlRow) :
    bowl_team q t = (if lowerS (stripS q) == "" then t
      else t.filter (fun r =>
        containsS (lowerS ((r.bowlingteam).getD "nan")) (lowerS (stripS q)))) := by
  simp only [bowl_team, pick_team_mask]
  by_cases hq : (lowerS (stripS q) == "") = true
  · rw [if_pos hq, if_pos hq, List.map_map]
    exact maskFilter_const_true t
  · rw [if_neg hq, if_neg hq, List.map_map]
    exact maskFilter_map _ t

/-- Claim C8 (confirmed): the tournament-membership filter commutes with
the player-identity filter and with the team-substring filter: each is a
pure per-row predicate, so applying them in either order yields the same
list of rows. -/
theorem C8_filters_commute (t : List BatRow) (A : List String) (x : String) (q : String) :
    tournFilterBat A (playerFilterBat x t) = playerFilterBat x (tournFilterBat A t)
    ∧ tournFilterBat A (bat_team q t) = bat_team q (tournFilterBat A t) := by
  constructor
  · unfold tournFilterBat playerFilterBat
    by_cases hA : A.isEmpty = true
    · rw [if_pos hA, if_pos hA]
    · rw [if_neg hA, if_neg hA, List.filter_filter, List.filter_filter]
      apply List.filter_congr
      intro r _
      rw [Bool.and_comm]
  · rw [bat_team_eq q t, bat_team_eq q (tournFilterBat A t)]
    by_cases hq : (lowerS (stripS q) == "") = true
    · rw [if_pos hq, if_pos hq]
    · rw [if_neg hq, if_neg hq]
      unfold tournFilterBat
      by_cases hA : A.isEmpty = true
      · rw [if_pos hA, if_pos hA]
      · rw [if_neg hA, if_neg hA, List.filter_filter, List.filter_filter]
        apply List.filter_congr
        intro r _
        rw [Bool.and_comm]

/-! ## C10: the team-name mask on missing values -/

theorem isPrefixL_iff (nd : List Char) : ∀ hay,
    isPrefixL nd hay = true ↔ ∃ post, nd ++ post = hay := by
  induction nd with
  | nil =>
    intro hay
    simp [isPrefixL]
  | cons c nt ih =>
    intro hay
    cases hay with
    | nil =>
      simp [isPrefixL]
    | cons h ht =>
      simp only [isPrefixL, Bool.and_eq_true, beq_iff_eq, ih]
      constructor
      · rintro ⟨rfl, post, rfl⟩
        exact ⟨post, rfl⟩
      · rintro ⟨post, hp⟩
        rw [List.cons_append] at hp
        injection hp with h1 h2
        exact ⟨h1, post, h2⟩

theorem containsL_iff (nd : List Char) : ∀ hay,
    containsL hay nd = true ↔ ∃ pre post, pre ++ nd ++ post = hay := by
  intro hay
  induction hay with
  | nil =>
    simp only [containsL]
    constructor
    · intro h
      rw [List.isEmpty_iff] at h
      exact ⟨[], [], by simp [h]⟩
    · rintro ⟨pre, post, hp⟩
      rcases List.append_eq_nil.mp hp with ⟨h1, h2⟩
      rcases List.append_eq_nil.mp h1 with ⟨h3, h4⟩
      rw [List.isEmpty_iff]
      exact h4
  | cons c t ih =>
    simp only [containsL, Bool.or_eq_true, isPrefixL_iff, ih]
    constructor
    · rintro (⟨post, hp⟩ | ⟨pre, post, hp⟩)
      · exact ⟨[], post, by simpa using hp⟩
      · exact ⟨c :: pre, post, by simp [hp]⟩
    · rintro ⟨pre, post, hp⟩
      cases pre with
      | nil =>
        left
        exact ⟨post, by simpa using hp⟩
      | cons pc pt =>
        right
        rw [List.cons_append] at hp
        injection hp with h1 h2
        exact ⟨pt, post, h2⟩

theorem map_const_true {α : Type} (t : List α) :
    t.map (fun _ => true) = List.replicate t.length true := by
  induction t with
  | nil => rfl
  | cons r t ih => simp [List.replicate_succ, ih]

/-- Claim C10 (confirmed): a missing team-name cell is stringified to the
literal "nan" before matching, so with any non-empty (stripped, lowered)
query it passes the mask exactly when that query is a contiguous substring
of "nan"; a whitespace-only query strips to the empty query and passes
every row. -/
theorem C10_mask_missing (series : List (Option String)) (q : String) :
    ((lowerS (stripS q)) ≠ "" →
      pick_team_mask series q = series.map (fun v =>
        match v with
        | none => containsL ("nan".toList) ((lowerS (stripS q)).toList)
        | some s => containsS (lowerS s) (lowerS (stripS q))))
    ∧ ((lowerS (stripS q)) ≠ "" →
        (containsL ("nan".toList) ((lowerS (stripS q)).toList) = true ↔
          ∃ pre post, pre ++ (lowerS (stripS q)).toList ++ post = "nan".toList))
    ∧ (stripS q = "" → pick_team_mask series q = List.replicate series.length true) := by
  refine ⟨?_, ?_, ?_⟩
  · intro hq
    simp only [pick_team_mask]
    rw [if_neg (by simp [hq])]
    apply List.map_congr_left
    intro v _
    cases v with
    | none =>
      show containsS (lowerS "nan") (lowerS (stripS q)) = _
      rw [show lowerS "nan" = "nan" from by decide]
      rfl
    | some s => rfl
  · intro _
    exact containsL_iff _ _
  · intro hq
    simp only [pick_team_mask]
    rw [hq, if_pos (by decide)]
    exact map_const_true series

/-- Witness: the query "NA" strips and lowers to "na", a substring of
"nan", so a missing team cell passes; a whitespace-only query passes every
cell. -/
theorem C10_witness :
    pick_team_mask [none] "NA" = [true]
    ∧ pick_team_mask [(some "SUPREMOS" : Option String)] "  " = [true] := by
  constructor
  · rw [(C10_mask_missing [none] "NA").1 (by decide)]
    decide
  · rw [(C10_mask_missing [some "SUPREMOS"] "  ").2.2 (by decide)]
    rfl

/-! ## C9: leaderboard ordering -/

/-- Claim C9 (corrected): both leaderboards are sorted on their single
primary key only — batting by descending total runs, bowling by descending
wickets; `sort_values` is called with one column, so NO strike-rate or
economy tiebreak is applied (tied rows keep the ascending groupby key
order). The sorted output is a permutation of the grouped rows. -/
theorem C9_amended (t : List BatRow) (tb : List BowlRow) :
    List.Sorted (fun a b : BatSumRow => b.runs ≤ a.runs) (bat_summary t)
    ∧ (bat_summary t).Perm ((batKeys t).map (mkBatSumRow t))
    ∧ List.Sorted (fun a b : BowlSumRow => b.wickets ≤ a.wickets) (bowl_summary tb)
    ∧ (bowl_summary tb).Perm ((bowlKeys tb).map (mkBowlSumRow tb)) := by
  refine ⟨?_, ?_, ?_, ?_⟩
  · haveI h1 : IsTotal BatSumRow (fun a b => b.runs ≤ a.runs) :=
      ⟨fun a b => le_total b.runs a.runs⟩
    haveI h2 : IsTrans BatSumRow (fun a b => b.runs ≤ a.runs) :=
      ⟨fun a b c hab hbc => le_trans hbc hab⟩
    exact List.sorted_insertionSort _ _
  · exact List.perm_insertionSort _ _
  · haveI h1 : IsTotal BowlSumRow (fun a b => b.wickets ≤ a.wickets) :=
      ⟨fun a b => le_total b.wickets a.wickets⟩
    haveI h2 : IsTrans BowlSumRow (fun a b => b.wickets ≤ a.wickets) :=
      ⟨fun a b c hab hbc => le_trans hbc hab⟩
    exact List.sorted_insertionSort _ _
  · exact List.perm_insertionSort _ _

/-- A concrete refutation of claim C9 as stated: "alice" and "bob" are tied
on 10 runs with strike rates 50 and 200; the claimed tiebreak (descending
strike rate) would list bob first, but the code keeps the groupby order and
lists alice (strike rate 50) before bob (strike rate 200). -/
theorem C9_counterexample :
    (bat_summary [rowAlice, rowBob]).map (fun r => (r.playername, r.runs, r.sr))
      = [("alice", (10 : ℚ), PFloat.fin 50), ("bob", (10 : ℚ), PFloat.fin 200)] := by
  have hk : batKeys [rowAlice, rowBob] = ["alice", "bob"] := by decide
  have hga : batGroup [rowAlice, rowBob] "alice" = [rowAlice] := by decide
  have hgb : batGroup [rowAlice, rowBob] "bob" = [rowBob] := by decide
  have hra : sumO ([rowAlice].map (·.runs)) = 10 := by
    simp [sumO, rowAlice, rowRuns10BallsNaN]
  have hba : sumO ([rowAlice].map (·.balls)) = 20 := by
    simp [sumO, rowAlice, rowRuns10BallsNaN]
  have hrb : sumO ([rowBob].map (·.runs)) = 10 := by
    simp [sumO, rowBob, rowRuns10BallsNaN]
  have hbb2 : sumO ([rowBob].map (·.balls)) = 5 := by
    simp [sumO, rowBob, rowRuns10BallsNaN]
  have hAruns : (mkBatSumRow [rowAlice, rowBob] "alice").runs = 10 := by
    simp only [mkBatSumRow, hga, hra]
  have hBruns : (mkBatSumRow [rowAlice, rowBob] "bob").runs = 10 := by
    simp only [mkBatSumRow, hgb, hrb]
  have hAname : (mkBatSumRow [rowAlice, rowBob] "alice").playername = "alice" := by
    simp only [mkBatSumRow]
  have hBname : (mkBatSumRow [rowAlice, rowBob] "bob").playername = "bob" := by
    simp only [mkBatSumRow]
  have hAsr : (mkBatSumRow [rowAlice, rowBob] "alice").sr = PFloat.fin 50 := by
    simp only [mkBatSumRow, hga, hra, hba]
    unfold pyDiv
    rw [if_pos (by norm_num), show (10 : ℚ) * 100 / 20 = 50 by norm_num]
    show PFloat.fin (roundQ 2 50) = PFloat.fin 50
    rw [roundQ_of_mul_pow_intCast (n := 5000) (by push_cast; ring)]
  have hBsr : (mkBatSumRow [rowAlice, rowBob] "bob").sr = PFloat.fin 200 := by
    simp only [mkBatSumRow, hgb, hrb, hbb2]
    unfold pyDiv
    rw [if_pos (by norm_num), show (10 : ℚ) * 100 / 5 = 200 by norm_num]
    show PFloat.fin (roundQ 2 200) = PFloat.fin 200
    rw [roundQ_of_mul_pow_intCast (n := 20000) (by push_cast; ring)]
  unfold bat_summary
  rw [hk]
  simp only [List.map_cons, List.map_nil, List.insertionSort, List.orderedInsert]
  rw [if_pos (show (mkBatSumRow [rowAlice, rowBob] "bob").runs
      ≤ (mkBatSumRow [rowAlice, rowBob] "alice").runs by rw [hAruns, hBruns])]
  simp only [List.map_cons, List.map_nil]
  rw [hAname, hAruns, hAsr, hBname, hBruns, hBsr]

end CricketDash
